import Mathlib

/-!
Verification of the Technical & Performance Metrics Engine of the
`stock_view` repository (`src/utils/financial_metrics.py` and the rolling
overlay helpers of `src/utils/chart_utils.py`).

Prices are modelled as exact rationals (`ℚ`).  Pandas/NumPy `NaN` and Python
`None` results are modelled with `Option`; where a claim needs the
distinction between `None`, `NaN`, `inf` and an exception, a dedicated
result type is used.  Square roots (`pandas .std()`) live in `ℝ`.
-/

namespace StockView

/-! ### Generic list statistics (pandas `mean` / `std(ddof=1)`) -/

/-- Arithmetic mean of a list (`sum / len`; division by zero only at `[]`). -/
def mean (l : List ℚ) : ℚ := l.sum / l.length

/-- Sample variance with `ddof=1`, as used by pandas `.std()` (squared). -/
def sampleVar (l : List ℚ) : ℚ :=
  (l.map fun x => (x - mean l) ^ 2).sum / ((l.length : ℚ) - 1)

/-- The trailing window of width `w` ending at position `i` (inclusive). -/
def windowAt (xs : List ℚ) (w i : ℕ) : List ℚ :=
  (xs.take (i + 1)).drop (i + 1 - w)

/-- `Series.rolling(window=w).mean()`: defined from position `w-1` on. -/
def rollingMean (xs : List ℚ) (w : ℕ) : List (Option ℚ) :=
  (List.range xs.length).map fun i =>
    if w ≤ i + 1 then some (mean (windowAt xs w i)) else none

/-- `Series.rolling(window=w).std()` squared: the rolling sample variance.
    pandas yields `NaN` everywhere for `w = 1` (`ddof=1`), hence `2 ≤ w`. -/
def rollingVar (xs : List ℚ) (w : ℕ) : List (Option ℚ) :=
  (List.range xs.length).map fun i =>
    if 2 ≤ w ∧ w ≤ i + 1 then some (sampleVar (windowAt xs w i)) else none

/-- `Series.rolling(window=w).std()`, the square root of `rollingVar`. -/
noncomputable def rollingStd (xs : List ℚ) (w : ℕ) : List (Option ℝ) :=
  (rollingVar xs w).map (Option.map fun v : ℚ => Real.sqrt (v : ℝ))

/-- Bollinger upper band `sma + std * k` (`_add_bollinger_bands`). -/
noncomputable def bbUpper (xs : List ℚ) (w : ℕ) (k : ℚ) : List (Option ℝ) :=
  List.zipWith (fun m s => match m, s with
    | some m, some s => some ((m : ℝ) + (k : ℝ) * s)
    | _, _ => none) (rollingMean xs w) (rollingStd xs w)

/-- Bollinger lower band `sma - std * k` (`_add_bollinger_bands`). -/
noncomputable def bbLower (xs : List ℚ) (w : ℕ) (k : ℚ) : List (Option ℝ) :=
  List.zipWith (fun m s => match m, s with
    | some m, some s => some ((m : ℝ) - (k : ℝ) * s)
    | _, _ => none) (rollingMean xs w) (rollingStd xs w)

/-! ### Basic lemmas about the rolling operators -/

theorem rollingMean_length (xs : List ℚ) (w : ℕ) :
    (rollingMean xs w).length = xs.length := by
  simp [rollingMean]

theorem rollingVar_length (xs : List ℚ) (w : ℕ) :
    (rollingVar xs w).length = xs.length := by
  simp [rollingVar]

theorem rollingStd_length (xs : List ℚ) (w : ℕ) :
    (rollingStd xs w).length = xs.length := by
  simp [rollingStd, rollingVar_length]

theorem bbUpper_length (xs : List ℚ) (w : ℕ) (k : ℚ) :
    (bbUpper xs w k).length = xs.length := by
  simp [bbUpper, rollingMean_length, rollingStd_length]

theorem bbLower_length (xs : List ℚ) (w : ℕ) (k : ℚ) :
    (bbLower xs w k).length = xs.length := by
  simp [bbLower, rollingMean_length, rollingStd_length]

theorem rollingMean_getElem? (xs : List ℚ) (w i : ℕ) (h : i < xs.length) :
    (rollingMean xs w)[i]? =
      some (if w ≤ i + 1 then some (mean (windowAt xs w i)) else none) := by
  simp [rollingMean, List.getElem?_map, List.getElem?_range, h]

theorem rollingVar_getElem? (xs : List ℚ) (w i : ℕ) (h : i < xs.length) :
    (rollingVar xs w)[i]? =
      some (if 2 ≤ w ∧ w ≤ i + 1 then some (sampleVar (windowAt xs w i)) else none) := by
  simp [rollingVar, List.getElem?_map, List.getElem?_range, h]

theorem rollingStd_getElem? (xs : List ℚ) (w i : ℕ) (h : i < xs.length) :
    (rollingStd xs w)[i]? =
      some (if 2 ≤ w ∧ w ≤ i + 1 then
        some (Real.sqrt (sampleVar (windowAt xs w i) : ℝ)) else none) := by
  rw [rollingStd, List.getElem?_map, rollingVar_getElem? xs w i h]
  by_cases hc : 2 ≤ w ∧ w ≤ i + 1 <;> simp [hc]

theorem bbUpper_getElem? (xs : List ℚ) (w i : ℕ) (k : ℚ) (h : i < xs.length) :
    (bbUpper xs w k)[i]? =
      some (if 2 ≤ w ∧ w ≤ i + 1 then
        some ((mean (windowAt xs w i) : ℝ) +
          (k : ℝ) * Real.sqrt (sampleVar (windowAt xs w i) : ℝ)) else none) := by
  rw [bbUpper, List.getElem?_zipWith', rollingMean_getElem? xs w i h,
    rollingStd_getElem? xs w i h]
  by_cases hc : 2 ≤ w ∧ w ≤ i + 1
  · simp only [if_pos hc, if_pos hc.2]; rfl
  · by_cases hm : w ≤ i + 1
    · simp only [if_neg hc, if_pos hm]; rfl
    · simp only [if_neg hc, if_neg hm]; rfl

theorem bbLower_getElem? (xs : List ℚ) (w i : ℕ) (k : ℚ) (h : i < xs.length) :
    (bbLower xs w k)[i]? =
      some (if 2 ≤ w ∧ w ≤ i + 1 then
        some ((mean (windowAt xs w i) : ℝ) -
          (k : ℝ) * Real.sqrt (sampleVar (windowAt xs w i) : ℝ)) else none) := by
  rw [bbLower, List.getElem?_zipWith', rollingMean_getElem? xs w i h,
    rollingStd_getElem? xs w i h]
  by_cases hc : 2 ≤ w ∧ w ≤ i + 1
  · simp only [if_pos hc, if_pos hc.2]; rfl
  · by_cases hm : w ≤ i + 1
    · simp only [if_neg hc, if_pos hm]; rfl
    · simp only [if_neg hc, if_neg hm]; rfl

theorem windowAt_length (xs : List ℚ) (w i : ℕ) (h1 : w ≤ i + 1)
    (h2 : i < xs.length) : (windowAt xs w i).length = w := by
  simp only [windowAt, List.length_drop, List.length_take]
  omega

/-- The trailing window depends only on the prefix up to its end. -/
theorem windowAt_agree (xs ys : List ℚ) (w i j : ℕ)
    (h : xs.take (i + 1) = ys.take (i + 1)) (hj : j ≤ i) :
    windowAt xs w j = windowAt ys w j := by
  have hx : xs.take (j + 1) = ys.take (j + 1) := by
    have := congrArg (List.take (j + 1)) h
    simpa [List.take_take, Nat.min_eq_left (by omega : j + 1 ≤ i + 1)] using this
  simp [windowAt, hx]

theorem take_length_eq (xs ys : List ℚ) (i : ℕ)
    (h : xs.take (i + 1) = ys.take (i + 1)) (j : ℕ) (hj : j ≤ i) :
    (j < xs.length ↔ j < ys.length) := by
  have := congrArg List.length h
  simp only [List.length_take] at this
  omega

/-- No look-ahead: rolling means agree on a common prefix. -/
theorem rollingMean_agree (xs ys : List ℚ) (w i j : ℕ)
    (h : xs.take (i + 1) = ys.take (i + 1)) (hj : j ≤ i) :
    (rollingMean xs w)[j]? = (rollingMean ys w)[j]? := by
  by_cases hx : j < xs.length
  · have hy : j < ys.length := (take_length_eq xs ys i h j hj).mp hx
    rw [rollingMean_getElem? xs w j hx, rollingMean_getElem? ys w j hy,
      windowAt_agree xs ys w i j h hj]
  · have hy : ¬ j < ys.length := fun hc => hx ((take_length_eq xs ys i h j hj).mpr hc)
    rw [List.getElem?_eq_none (by rw [rollingMean_length]; omega),
      List.getElem?_eq_none (by rw [rollingMean_length]; omega)]

theorem bbUpper_agree (xs ys : List ℚ) (w i j : ℕ) (k : ℚ)
    (h : xs.take (i + 1) = ys.take (i + 1)) (hj : j ≤ i) :
    (bbUpper xs w k)[j]? = (bbUpper ys w k)[j]? := by
  by_cases hx : j < xs.length
  · have hy : j < ys.length := (take_length_eq xs ys i h j hj).mp hx
    rw [bbUpper_getElem? xs w j k hx, bbUpper_getElem? ys w j k hy,
      windowAt_agree xs ys w i j h hj]
  · have hy : ¬ j < ys.length := fun hc => hx ((take_length_eq xs ys i h j hj).mpr hc)
    rw [List.getElem?_eq_none (by rw [bbUpper_length]; omega),
      List.getElem?_eq_none (by rw [bbUpper_length]; omega)]

theorem bbLower_agree (xs ys : List ℚ) (w i j : ℕ) (k : ℚ)
    (h : xs.take (i + 1) = ys.take (i + 1)) (hj : j ≤ i) :
    (bbLower xs w k)[j]? = (bbLower ys w k)[j]? := by
  by_cases hx : j < xs.length
  · have hy : j < ys.length := (take_length_eq xs ys i h j hj).mp hx
    rw [bbLower_getElem? xs w j k hx, bbLower_getElem? ys w j k hy,
      windowAt_agree xs ys w i j h hj]
  · have hy : ¬ j < ys.length := fun hc => hx ((take_length_eq xs ys i h j hj).mpr hc)
    rw [List.getElem?_eq_none (by rw [bbLower_length]; omega),
      List.getElem?_eq_none (by rw [bbLower_length]; omega)]

/-- The trailing window is exactly the `w` closes at positions `i-w+1 .. i`. -/
theorem windowAt_eq_drop_take (xs : List ℚ) (w i : ℕ) :
    windowAt xs w i = (xs.drop (i + 1 - w)).take (i + 1 - (i + 1 - w)) := by
  simp [windowAt, List.drop_take]

/-! ### Data model: bars and the `FinancialMetrics` object -/

/-- One daily bar: a calendar date `(year, month, day)` and a close price.
    Only the close and the date's year are consumed by the metrics code. -/
structure Bar where
  date : ℤ × ℤ × ℤ
  close : ℚ
deriving DecidableEq

/-- `date.year` of a bar. -/
def Bar.year (b : Bar) : ℤ := b.date.1

/-- Lexicographic strict order on `(year, month, day)` dates. -/
def dateLtB (a b : ℤ × ℤ × ℤ) : Bool :=
  a.1 < b.1 || (a.1 = b.1 && (a.2.1 < b.2.1 || (a.2.1 = b.2.1 && a.2.2 < b.2.2)))

/-- Well-formed series: dates strictly increasing (no duplicates). -/
def SortedSeries (bars : List Bar) : Prop :=
  List.Chain' (fun x y => dateLtB x.date y.date = true) bars

/-- Malformed series in the sense of the spec: non-monotonic or
    duplicate dates. -/
def MalformedSeries (bars : List Bar) : Prop := ¬ SortedSeries bars

instance (bars : List Bar) : Decidable (SortedSeries bars) :=
  inferInstanceAs (Decidable (List.Chain' (fun x y : Bar => dateLtB x.date y.date = true) bars))

instance (bars : List Bar) : Decidable (MalformedSeries bars) :=
  inferInstanceAs (Decidable (¬ SortedSeries bars))

/-- The `Close` column of the stored data. -/
def closesOf (bars : List Bar) : List ℚ := bars.map Bar.close

/-- The `FinancialMetrics` object: `__init__` stores both arguments. -/
structure FinancialMetrics where
  stock_info : List (String × ℚ)
  stock_data : List Bar

/-- `FinancialMetrics.__init__`: stores `stock_info` and `stock_data`
    verbatim; performs no validation of any kind. -/
def FinancialMetrics.init (info : List (String × ℚ)) (data : List Bar) :
    FinancialMetrics :=
  { stock_info := info, stock_data := data }

/-! ### Performance metrics (`get_performance_metrics`) -/

/-- The fixed lookback table (`periods` dict, minus the special YTD key). -/
def periodTable : List (String × ℕ) :=
  [("1 Day", 1), ("1 Week", 5), ("1 Month", 21), ("3 Months", 63),
   ("6 Months", 126), ("1 Year", 252)]

/-- One fixed-lookback row: emitted only when `len(data) > days`, with
    `start = Close.iloc[-days-1]`. -/
def fixedRow (closes : List ℚ) (cur : ℚ) (nm : String) (n : ℕ) :
    Option (String × ℚ) :=
  if n < closes.length then
    some (nm, (cur - closes.getD (closes.length - n - 1) 0) /
      closes.getD (closes.length - n - 1) 0 * 100)
  else none

/-- The YTD row: bars of the current calendar year; `0` when that subset
    is empty.  Always emitted. -/
def ytdRow (bars : List Bar) (cur : ℚ) (currentYear : ℤ) : String × ℚ :=
  match (closesOf (bars.filter fun b => b.year = currentYear)).head? with
  | some start => ("YTD", (cur - start) / start * 100)
  | none => ("YTD", 0)

/-- `get_performance_metrics`.  The ambient wall-clock year
    (`datetime.now().year`) is made an explicit argument.  `none` models
    the `IndexError` that `Close.iloc[-1]` raises on an empty series. -/
def get_performance_metrics (bars : List Bar) (currentYear : ℤ) :
    Option (List (String × ℚ)) :=
  match (closesOf bars).getLast? with
  | none => none
  | some cur =>
    some ((periodTable.filterMap fun p => fixedRow (closesOf bars) cur p.1 p.2)
      ++ [ytdRow bars cur currentYear])

/-! ### RSI (`_calculate_rsi`, window 14) -/

/-- `prices.diff()`: close-to-close deltas, `NaN` (= `none`) at position 0.
    pandas `diff` of an empty series is empty. -/
def deltaList : List ℚ → List (Option ℚ)
  | [] => []
  | p :: t => none :: List.zipWith (fun a b => some (b - a)) (p :: t) t

/-- One point of `delta.where(delta > 0, 0)`: the `NaN` delta fails the
    comparison (`NaN > 0` is false) and is replaced by `0`. -/
def gainOf : Option ℚ → ℚ
  | some x => if 0 < x then x else 0
  | none => 0

/-- One point of `(-delta.where(delta < 0, 0))` (likewise `0` at `NaN`). -/
def lossOf : Option ℚ → ℚ
  | some x => if x < 0 then -x else 0
  | none => 0

/-- `delta.where(delta > 0, 0)`: the gain series. -/
def gainsOf (prices : List ℚ) : List ℚ := (deltaList prices).map gainOf

/-- `(-delta.where(delta < 0, 0))`: the loss series (non-negative). -/
def lossesOf (prices : List ℚ) : List ℚ := (deltaList prices).map lossOf

/-- One point of `100 - 100/(1 + gain/loss)` under IEEE float semantics
    for non-negative `g`, `l`: `l = 0, g ≠ 0` gives `rs = ±inf` hence
    `100`; `0/0` gives `NaN` (= `none`). -/
def rsiVal (g l : ℚ) : Option ℚ :=
  if l = 0 then (if g = 0 then none else some 100)
  else some (100 - 100 / (1 + g / l))

/-- The full RSI series: pointwise `rsiVal` over the rolling means of
    gains and losses. -/
def rsiSeries (prices : List ℚ) (w : ℕ) : List (Option ℚ) :=
  List.zipWith (fun g l => match g, l with
    | some g, some l => rsiVal g l
    | _, _ => none) (rollingMean (gainsOf prices) w) (rollingMean (lossesOf prices) w)

/-- `_calculate_rsi`: `rsi.iloc[-1] if not rsi.empty else None`.  `none`
    covers both Python `None` (empty series) and a `NaN` last value. -/
def calculate_rsi (prices : List ℚ) (w : ℕ) : Option ℚ :=
  match (rsiSeries prices w).getLast? with
  | none => none
  | some v => v

/-- The trailing `w` entries of the delta series. -/
def trailingDeltas (prices : List ℚ) (w : ℕ) : List (Option ℚ) :=
  (deltaList prices).drop (prices.length - w)

/-! ### MACD (`_calculate_macd`) -/

/-- Recursion for `Series.ewm(span).mean()` with the pandas default
    `adjust=True`: running weighted numerator and denominator. -/
def ewmGo (a : ℚ) (num den : ℚ) : List ℚ → List ℚ
  | [] => []
  | x :: t =>
    ((x + (1 - a) * num) / (1 + (1 - a) * den)) ::
      ewmGo a (x + (1 - a) * num) (1 + (1 - a) * den) t

/-- `Series.ewm(span=s).mean()` with `α = 2/(s+1)`. -/
def ewmMean (xs : List ℚ) (span : ℚ) : List ℚ :=
  ewmGo (2 / (span + 1)) 0 0 xs

/-- `macd = ema_fast - ema_slow`. -/
def macdLine (prices : List ℚ) (fast slow : ℚ) : List ℚ :=
  List.zipWith (fun a b => a - b) (ewmMean prices fast) (ewmMean prices slow)

/-- `macd_signal = macd.ewm(span=signal).mean()`. -/
def macdSignalLine (prices : List ℚ) (fast slow signal : ℚ) : List ℚ :=
  ewmMean (macdLine prices fast slow) signal

/-- `macd_histogram = macd - macd_signal`. -/
def macdHistLine (prices : List ℚ) (fast slow signal : ℚ) : List ℚ :=
  List.zipWith (fun a b => a - b) (macdLine prices fast slow)
    (macdSignalLine prices fast slow signal)

/-- `_calculate_macd`: the last value of each of the three series,
    `None` for each when the corresponding series is empty. -/
def calculate_macd (prices : List ℚ) (fast slow signal : ℚ) :
    Option ℚ × Option ℚ × Option ℚ :=
  ((macdLine prices fast slow).getLast?,
   (macdSignalLine prices fast slow signal).getLast?,
   (macdHistLine prices fast slow signal).getLast?)

/-! ### Bollinger-band position (`_calculate_bollinger_position`) -/

/-- An IEEE-style scalar: a finite value, `NaN`, or a signed infinity. -/
inductive PyFloat where
  | num (x : ℝ)
  | nan
  | pinf
  | ninf

/-- Float division `a / b` over reals: `0/0 = NaN`, `±x/0 = ±inf`. -/
noncomputable def fdivR (a b : ℝ) : PyFloat :=
  if b = 0 then (if a = 0 then .nan else if 0 < a then .pinf else .ninf)
  else .num (a / b)

/-- Multiplication of a float result by the positive constant `100`. -/
noncomputable def pyMul100 : PyFloat → PyFloat
  | .num x => .num (x * 100)
  | v => v

/-- Outcome of `_calculate_bollinger_position`: a raised `IndexError`
    (empty series), Python `None`, or a float (possibly `NaN`). -/
inductive BBRes where
  | pyerror
  | pynone
  | fval (v : PyFloat)

/-- `_calculate_bollinger_position`: bands at the last position; `None`
    when either band is `NaN`; otherwise
    `(current - lower) / (upper - lower) * 100` under float semantics.
    `pyerror` models the `IndexError` of `prices.iloc[-1]` on empty input. -/
noncomputable def calculate_bollinger_position (prices : List ℚ) (w : ℕ)
    (num_std : ℚ) : BBRes :=
  match prices.getLast? with
  | none => .pyerror
  | some cur =>
    match ((bbUpper prices w num_std).getLast?).getD none,
          ((bbLower prices w num_std).getLast?).getD none with
    | some u, some l => .fval (pyMul100 (fdivR ((cur : ℝ) - l) (u - l)))
    | _, _ => .pynone

/-! ### Risk metrics (`get_volatility_metrics`) -/

/-- `Close.pct_change().dropna()`: daily simple returns. -/
def pctChange (closes : List ℚ) : List ℚ :=
  List.zipWith (fun a b => (b - a) / a) closes closes.tail

/-- `returns.std()` (ddof=1): `NaN` (= `none`) on fewer than 2 points. -/
noncomputable def sampleStd (l : List ℚ) : Option ℝ :=
  if 2 ≤ l.length then some (Real.sqrt (sampleVar l : ℝ)) else none

/-- `(1 + returns).cumprod()`, with running product accumulator. -/
def cumprodAux (acc : ℚ) : List ℚ → List ℚ
  | [] => []
  | r :: t => (acc * (1 + r)) :: cumprodAux (acc * (1 + r)) t

/-- `(1 + returns).cumprod()`. -/
def cumprod (rs : List ℚ) : List ℚ := cumprodAux 1 rs

/-- `expanding().max()` tail, given the running maximum so far. -/
def runningMaxAux (m : ℚ) : List ℚ → List ℚ
  | [] => []
  | x :: t => max m x :: runningMaxAux (max m x) t

/-- `cumulative_returns.expanding().max()`. -/
def runningMax : List ℚ → List ℚ
  | [] => []
  | x :: t => x :: runningMaxAux x t

/-- `Series.min()`: `NaN` (= `none`) on an empty series. -/
def listMin : List ℚ → Option ℚ
  | [] => none
  | x :: t => some (t.foldl min x)

/-- `np.percentile(l, q)` with the default linear-interpolation method,
    on a non-empty list: `h = (m-1)·q/100`, result
    `a[⌊h⌋] + (h - ⌊h⌋)·(a[⌊h⌋+1] - a[⌊h⌋])` over the sorted values. -/
def percentileLinear (l : List ℚ) (q : ℚ) : ℚ :=
  let a := l.insertionSort (· ≤ ·)
  let h : ℚ := (l.length - 1 : ℚ) * q / 100
  let f : ℕ := h.floor.toNat
  let lo := a.getD f 0
  let hi := a.getD (f + 1) lo
  lo + (h - f) * (hi - lo)

/-- The dictionary returned by `get_volatility_metrics`. -/
structure RiskSnapshot where
  annualized_volatility : Option ℝ
  sharpe_ratio : Option ℝ
  max_drawdown : Option ℚ
  var_95 : ℚ

/-- `annualized_volatility = daily_volatility * np.sqrt(252)`. -/
noncomputable def annVolOf (returns : List ℚ) : Option ℝ :=
  (sampleStd returns).map fun v => v * Real.sqrt 252

/-- `sharpe_ratio = excess_returns / annualized_volatility if
    annualized_volatility != 0 else 0` with `risk_free_rate = 0.02`;
    `NaN` volatility passes the `!= 0` test and propagates. -/
noncomputable def sharpeOf (returns : List ℚ) : Option ℝ :=
  match annVolOf returns with
  | none => none
  | some v => if v = 0 then some 0
      else some ((mean returns * 252 - 1 / 50 : ℚ) / v)

/-- `drawdown = (cumulative_returns - rolling_max) / rolling_max`. -/
def drawdownSeries (returns : List ℚ) : List ℚ :=
  List.zipWith (fun c m => (c - m) / m) (cumprod returns)
    (runningMax (cumprod returns))

/-- `max_drawdown = drawdown.min()` (`NaN` on an empty series). -/
def maxDrawdownOf (returns : List ℚ) : Option ℚ :=
  listMin (drawdownSeries returns)

/-- `get_volatility_metrics`.  The top-level `none` models the error
    `np.percentile` raises on an empty return series (a series with at
    most one bar); `Option` fields model `NaN` results. -/
noncomputable def get_volatility_metrics (closes : List ℚ) :
    Option RiskSnapshot :=
  match pctChange closes with
  | [] => none
  | _ :: _ =>
    some { annualized_volatility := (annVolOf (pctChange closes)).map fun v => v * 100,
           sharpe_ratio := sharpeOf (pctChange closes),
           max_drawdown := (maxDrawdownOf (pctChange closes)).map fun v => v * 100,
           var_95 := percentileLinear (pctChange closes) 5 * 100 }

/-! ### Claim C1: rolling overlays -/

/-- C1: for every close series and window `w` (MA windows 20/50; Bollinger
    window 20, `k = 2`), the rolling overlays have the same length as the
    series; at every position `i ≥ w-1` the moving average equals the simple
    arithmetic mean of the `w` closes at positions `i-w+1 .. i`, and the
    Bollinger bands equal that mean ± `k` sample standard deviations
    (ddof = 1); positions `i < w-1` are undefined; and no overlay value
    depends on a later bar (equal prefixes give equal overlay prefixes). -/
theorem C1_rolling_overlays (xs ys : List ℚ) (w : ℕ) (k : ℚ) (hw : 1 ≤ w) :
    (rollingMean xs w).length = xs.length
    ∧ (bbUpper xs w k).length = xs.length
    ∧ (bbLower xs w k).length = xs.length
    ∧ (∀ i, i < xs.length → w ≤ i + 1 →
        (rollingMean xs w)[i]? = some (some (((xs.drop (i + 1 - w)).take w).sum / w))
        ∧ ((xs.drop (i + 1 - w)).take w).length = w)
    ∧ (∀ i, i < xs.length → 2 ≤ w → w ≤ i + 1 →
        (bbUpper xs w k)[i]? = some (some ((mean (windowAt xs w i) : ℝ)
            + (k : ℝ) * Real.sqrt (sampleVar (windowAt xs w i) : ℝ)))
        ∧ (bbLower xs w k)[i]? = some (some ((mean (windowAt xs w i) : ℝ)
            - (k : ℝ) * Real.sqrt (sampleVar (windowAt xs w i) : ℝ))))
    ∧ (∀ i, i < xs.length → i + 1 < w →
        (rollingMean xs w)[i]? = some none
        ∧ (bbUpper xs w k)[i]? = some none
        ∧ (bbLower xs w k)[i]? = some none)
    ∧ (∀ i j, j ≤ i → xs.take (i + 1) = ys.take (i + 1) →
        (rollingMean xs w)[j]? = (rollingMean ys w)[j]?
        ∧ (bbUpper xs w k)[j]? = (bbUpper ys w k)[j]?
        ∧ (bbLower xs w k)[j]? = (bbLower ys w k)[j]?) := by
  refine ⟨rollingMean_length xs w, bbUpper_length xs w k, bbLower_length xs w k,
    ?_, ?_, ?_, ?_⟩
  · intro i hi hwi
    have hlen : ((xs.drop (i + 1 - w)).take w).length = w := by
      simp only [List.length_take, List.length_drop]
      omega
    have hwin : windowAt xs w i = (xs.drop (i + 1 - w)).take w := by
      rw [windowAt_eq_drop_take]
      congr 1
      omega
    refine ⟨?_, hlen⟩
    rw [rollingMean_getElem? xs w i hi, if_pos hwi, hwin]
    rw [mean, hlen]
  · intro i hi h2 hwi
    constructor
    · rw [bbUpper_getElem? xs w i k hi, if_pos ⟨h2, hwi⟩]
    · rw [bbLower_getElem? xs w i k hi, if_pos ⟨h2, hwi⟩]
  · intro i hi hlt
    have hnot : ¬ w ≤ i + 1 := by omega
    refine ⟨?_, ?_, ?_⟩
    · rw [rollingMean_getElem? xs w i hi, if_neg hnot]
    · rw [bbUpper_getElem? xs w i k hi, if_neg (fun hc => hnot hc.2)]
    · rw [bbLower_getElem? xs w i k hi, if_neg (fun hc => hnot hc.2)]
  · intro i j hj hpre
    exact ⟨rollingMean_agree xs ys w i j hpre hj,
      bbUpper_agree xs ys w i j k hpre hj,
      bbLower_agree xs ys w i j k hpre hj⟩

/-- Witness for C1 at a concrete series, window 2. -/
theorem C1_rolling_overlays_witness :
    (rollingMean [(1 : ℚ), 2, 3] 2).length = 3
    ∧ (rollingMean [(1 : ℚ), 2, 3] 2)[1]? = (rollingMean [(1 : ℚ), 2, 4] 2)[1]? := by
  have h := C1_rolling_overlays [(1 : ℚ), 2, 3] [(1 : ℚ), 2, 4] 2 1 (by decide)
  exact ⟨h.1, (h.2.2.2.2.2.2 1 1 (by decide) (by decide)).1⟩

/-! ### Claim C3: fixed-lookback performance rows -/

theorem closesOf_length (bars : List Bar) : (closesOf bars).length = bars.length := by
  simp [closesOf]

theorem getLast?_eq_getD (l : List ℚ) (h : l ≠ []) :
    l.getLast? = some (l.getD (l.length - 1) 0) := by
  rw [List.getLast?_eq_getElem? l]
  have hlt : l.length - 1 < l.length := by
    cases l with
    | nil => exact absurd rfl h
    | cons a t => simp
  rw [List.getElem?_eq_getElem hlt, List.getD_eq_getElem l 0 hlt]

theorem fixedRow_eq_some (closes : List ℚ) (cur : ℚ) (nm : String) (n : ℕ)
    (nm' : String) (v : ℚ) (h : fixedRow closes cur nm n = some (nm', v)) :
    nm' = nm ∧ n < closes.length := by
  unfold fixedRow at h
  split at h
  · exact ⟨((Prod.mk.injEq _ _ _ _).mp (Option.some.inj h)).1.symm, by assumption⟩
  · exact absurd h (by simp)

theorem ytdRow_fst (bars : List Bar) (cur : ℚ) (y : ℤ) :
    (ytdRow bars cur y).1 = "YTD" := by
  unfold ytdRow
  cases (closesOf (bars.filter fun b => b.year = y)).head? <;> rfl

theorem periodTable_fst_ne_ytd : ∀ p ∈ periodTable, p.1 ≠ "YTD" := by decide

theorem periodTable_fst_injective :
    ∀ p ∈ periodTable, ∀ q ∈ periodTable, p.1 = q.1 → p = q := by decide

/-- C3: for every fixed lookback `(nm, n)` of the period table, a series
    with more than `n` bars yields a row `(nm, (last - close_at(-n-1)) /
    close_at(-n-1) * 100)`, and a series with at most `n` bars yields no
    row named `nm` at all. -/
theorem C3_performance (bars : List Bar) (y : ℤ) (nm : String) (n : ℕ)
    (hmem : (nm, n) ∈ periodTable) :
    (n < bars.length →
      ∃ rows, get_performance_metrics bars y = some rows
        ∧ (nm, ((closesOf bars).getD (bars.length - 1) 0
            - (closesOf bars).getD (bars.length - n - 1) 0)
            / (closesOf bars).getD (bars.length - n - 1) 0 * 100) ∈ rows)
    ∧ (bars.length ≤ n →
      ∀ rows v, get_performance_metrics bars y = some rows → (nm, v) ∉ rows) := by
  constructor
  · intro hlen
    have hne : closesOf bars ≠ [] := by
      intro hc
      have := closesOf_length bars
      rw [hc] at this
      simp at this
      omega
    have hcur := getLast?_eq_getD (closesOf bars) hne
    rw [closesOf_length] at hcur
    refine ⟨(periodTable.filterMap fun p =>
        fixedRow (closesOf bars) ((closesOf bars).getD (bars.length - 1) 0) p.1 p.2)
      ++ [ytdRow bars ((closesOf bars).getD (bars.length - 1) 0) y], ?_, ?_⟩
    · unfold get_performance_metrics
      rw [hcur]
    · apply List.mem_append_left
      apply List.mem_filterMap.mpr
      refine ⟨(nm, n), hmem, ?_⟩
      unfold fixedRow
      rw [if_pos (by rw [closesOf_length]; omega)]
      rw [closesOf_length]
  · intro hlen rows v hperf hrow
    unfold get_performance_metrics at hperf
    cases hc : (closesOf bars).getLast? with
    | none => rw [hc] at hperf; exact Option.noConfusion hperf
    | some cur =>
      rw [hc] at hperf
      have hrows := Option.some.inj hperf
      rw [← hrows] at hrow
      rcases List.mem_append.mp hrow with hfix | hytd
      · obtain ⟨p, hp, hfp⟩ := List.mem_filterMap.mp hfix
        obtain ⟨hname, hlt⟩ := fixedRow_eq_some _ _ _ _ _ _ hfp
        have hpq : p = (nm, n) :=
          periodTable_fst_injective p hp (nm, n) hmem (by rw [hname])
        rw [hpq] at hlt
        rw [closesOf_length] at hlt
        omega
      · have : (nm, v) = ytdRow bars cur y := List.mem_singleton.mp hytd
        have hn := ytdRow_fst bars cur y
        rw [← this] at hn
        exact periodTable_fst_ne_ytd (nm, n) hmem hn

/-- Witness for C3: closes `[100, 110]`, lookback 1 gives `+10%`; lookback
    5 (1 Week) is absent. -/
theorem C3_performance_witness :
    (∃ rows, get_performance_metrics
        [Bar.mk (2025, 1, 2) 100, Bar.mk (2025, 1, 3) 110] 2025 = some rows
      ∧ ("1 Day", (10 : ℚ)) ∈ rows)
    ∧ (∀ rows v, get_performance_metrics
        [Bar.mk (2025, 1, 2) 100, Bar.mk (2025, 1, 3) 110] 2025 = some rows →
        ("1 Week", v) ∉ rows) := by
  constructor
  · obtain ⟨rows, h1, h2⟩ :=
      (C3_performance [Bar.mk (2025, 1, 2) 100, Bar.mk (2025, 1, 3) 110] 2025
        "1 Day" 1 (by decide)).1 (by decide)
    refine ⟨rows, h1, ?_⟩
    have hv : (((closesOf [Bar.mk (2025, 1, 2) 100, Bar.mk (2025, 1, 3) 110]).getD
        (([Bar.mk (2025, 1, 2) 100, Bar.mk (2025, 1, 3) 110]).length - 1) 0
        - (closesOf [Bar.mk (2025, 1, 2) 100, Bar.mk (2025, 1, 3) 110]).getD
        (([Bar.mk (2025, 1, 2) 100, Bar.mk (2025, 1, 3) 110]).length - 1 - 1) 0)
        / (closesOf [Bar.mk (2025, 1, 2) 100, Bar.mk (2025, 1, 3) 110]).getD
        (([Bar.mk (2025, 1, 2) 100, Bar.mk (2025, 1, 3) 110]).length - 1 - 1) 0 * 100)
        = (10 : ℚ) := by norm_num [closesOf]
    rw [← hv]
    exact h2
  · exact (C3_performance [Bar.mk (2025, 1, 2) 100, Bar.mk (2025, 1, 3) 110] 2025
      "1 Week" 5 (by decide)).2 (by decide)

/-! ### Claim C4: MACD -/

theorem ewmGo_length (a num den : ℚ) (xs : List ℚ) :
    (ewmGo a num den xs).length = xs.length := by
  induction xs generalizing num den with
  | nil => rfl
  | cons x t ih => simp [ewmGo, ih]

theorem ewmMean_length (xs : List ℚ) (span : ℚ) :
    (ewmMean xs span).length = xs.length := by
  simp [ewmMean, ewmGo_length]

theorem getLast?_zipWith_sub (a b : List ℚ) (h : a.length = b.length) :
    (List.zipWith (fun x y => x - y) a b).getLast? =
      (a.getLast?.map fun x y => x - y).bind fun g => b.getLast?.map g := by
  rw [List.getLast?_eq_getElem?, List.getLast?_eq_getElem?, List.getLast?_eq_getElem?,
    List.length_zipWith, ← h, Nat.min_self, List.getElem?_zipWith']

theorem macdLine_length (prices : List ℚ) (fast slow : ℚ) :
    (macdLine prices fast slow).length = prices.length := by
  simp [macdLine, List.length_zipWith, ewmMean_length]

/-- C4: with spans fast = 12, slow = 26, signal = 9, the three returned
    last values are all `None` exactly when the series is empty, and on a
    non-empty series they satisfy `histogram = MACD - Signal` exactly,
    with `Signal` the EMA of the MACD line and `MACD = EMA_12 - EMA_26`. -/
theorem C4_macd (prices : List ℚ) :
    (prices = [] → calculate_macd prices 12 26 9 = (none, none, none))
    ∧ (prices ≠ [] → ∃ m s h, calculate_macd prices 12 26 9 = (some m, some s, some h)
        ∧ h = m - s
        ∧ (macdLine prices 12 26).getLast? = some m
        ∧ (ewmMean (macdLine prices 12 26) 9).getLast? = some s
        ∧ ∃ ef es, (ewmMean prices 12).getLast? = some ef
            ∧ (ewmMean prices 26).getLast? = some es ∧ m = ef - es) := by
  constructor
  · intro he
    subst he
    rfl
  · intro hne
    have hlem : (ewmMean prices 12).length = (ewmMean prices 26).length := by
      rw [ewmMean_length, ewmMean_length]
    have hfne : ewmMean prices 12 ≠ [] := by
      intro hc
      have := ewmMean_length prices 12
      rw [hc] at this
      exact hne (List.length_eq_zero.mp this.symm)
    have hsne : ewmMean prices 26 ≠ [] := by
      intro hc
      have := ewmMean_length prices 26
      rw [hc] at this
      exact hne (List.length_eq_zero.mp this.symm)
    obtain ⟨ef, hef⟩ := Option.isSome_iff_exists.mp (List.getLast?_isSome.mpr hfne)
    obtain ⟨es, hes⟩ := Option.isSome_iff_exists.mp (List.getLast?_isSome.mpr hsne)
    have hm : (macdLine prices 12 26).getLast? = some (ef - es) := by
      rw [macdLine, getLast?_zipWith_sub _ _ hlem, hef, hes]
      rfl
    have hmne : macdLine prices 12 26 ≠ [] := by
      intro hc
      have := macdLine_length prices 12 26
      rw [hc] at this
      exact hne (List.length_eq_zero.mp this.symm)
    have hgne : ewmMean (macdLine prices 12 26) 9 ≠ [] := by
      intro hc
      have := ewmMean_length (macdLine prices 12 26) 9
      rw [hc] at this
      exact hmne (List.length_eq_zero.mp this.symm)
    obtain ⟨s, hs⟩ := Option.isSome_iff_exists.mp (List.getLast?_isSome.mpr hgne)
    have hh : (macdHistLine prices 12 26 9).getLast? = some (ef - es - s) := by
      rw [macdHistLine, getLast?_zipWith_sub _ _ (by
        rw [macdSignalLine, ewmMean_length]), hm, macdSignalLine, hs]
      rfl
    refine ⟨ef - es, s, ef - es - s, ?_, rfl, hm, hs, ef, es, hef, hes, rfl⟩
    unfold calculate_macd
    rw [hm, hh, macdSignalLine, hs]

/-- Witness for C4 at the one-element series `[1]`. -/
theorem C4_macd_witness :
    ∃ m s h, calculate_macd [(1 : ℚ)] 12 26 9 = (some m, some s, some h)
      ∧ h = m - s
      ∧ (macdLine [(1 : ℚ)] 12 26).getLast? = some m
      ∧ (ewmMean (macdLine [(1 : ℚ)] 12 26) 9).getLast? = some s
      ∧ ∃ ef es, (ewmMean [(1 : ℚ)] 12).getLast? = some ef
          ∧ (ewmMean [(1 : ℚ)] 26).getLast? = some es ∧ m = ef - es :=
  (C4_macd [(1 : ℚ)]).2 (by simp)

/-! ### Claims C2 and C7: RSI -/

theorem deltaList_length (prices : List ℚ) :
    (deltaList prices).length = prices.length := by
  cases prices with
  | nil => rfl
  | cons p t => simp [deltaList, List.length_zipWith]

theorem gainsOf_length (prices : List ℚ) :
    (gainsOf prices).length = prices.length := by
  simp [gainsOf, deltaList_length]

theorem lossesOf_length (prices : List ℚ) :
    (lossesOf prices).length = prices.length := by
  simp [lossesOf, deltaList_length]

theorem gainOf_nonneg (d : Option ℚ) : 0 ≤ gainOf d := by
  cases d with
  | none => exact le_refl 0
  | some x =>
    by_cases h : 0 < x
    · simp only [gainOf, if_pos h]
      linarith
    · simp only [gainOf, if_neg h]
      exact le_refl 0

theorem lossOf_nonneg (d : Option ℚ) : 0 ≤ lossOf d := by
  cases d with
  | none => exact le_refl 0
  | some x =>
    by_cases h : x < 0
    · simp only [lossOf, if_pos h]
      linarith
    · simp only [lossOf, if_neg h]
      exact le_refl 0

theorem mean_nonneg (l : List ℚ) (h : ∀ x ∈ l, 0 ≤ x) : 0 ≤ mean l :=
  div_nonneg (List.sum_nonneg h) (by positivity)

theorem mean_pos (l : List ℚ) (h : ∀ x ∈ l, 0 ≤ x) (x : ℚ) (hx : x ∈ l)
    (hp : 0 < x) : 0 < mean l := by
  have hlen : 0 < (l.length : ℚ) := by
    have : l ≠ [] := fun hc => by subst hc; exact List.not_mem_nil x hx
    have : 0 < l.length := List.length_pos.mpr this
    exact_mod_cast this
  exact div_pos (lt_of_lt_of_le hp (List.single_le_sum h x hx)) hlen

theorem mean_zero_of_all_zero (l : List ℚ) (h : ∀ x ∈ l, x = 0) : mean l = 0 := by
  have : l.sum = 0 := List.sum_eq_zero h
  simp [mean, this]

/-- The last RSI value: `rsiVal` of the trailing means once `w` bars
    exist, `NaN` before that. -/
theorem rsiSeries_getLast? (prices : List ℚ) (w : ℕ) (h1 : 1 ≤ prices.length) :
    (rsiSeries prices w).getLast? = some (if w ≤ prices.length then
      rsiVal (mean (windowAt (gainsOf prices) w (prices.length - 1)))
        (mean (windowAt (lossesOf prices) w (prices.length - 1)))
      else none) := by
  have hg := gainsOf_length prices
  have hl := lossesOf_length prices
  have hlen : (rsiSeries prices w).length = prices.length := by
    rw [rsiSeries, List.length_zipWith, rollingMean_length, rollingMean_length,
      hg, hl, Nat.min_self]
  have hlt : prices.length - 1 < (gainsOf prices).length := by omega
  have hlt' : prices.length - 1 < (lossesOf prices).length := by omega
  rw [List.getLast?_eq_getElem?, hlen, rsiSeries, List.getElem?_zipWith',
    rollingMean_getElem? _ w _ hlt, rollingMean_getElem? _ w _ hlt']
  have hsucc : prices.length - 1 + 1 = prices.length := by omega
  rw [hsucc]
  by_cases hw : w ≤ prices.length
  · rw [if_pos hw, if_pos hw, if_pos hw]
    rfl
  · rw [if_neg hw, if_neg hw, if_neg hw]
    rfl

theorem windowAt_last (xs : List ℚ) (w n : ℕ) (hn : xs.length = n)
    (h : 1 ≤ n) : windowAt xs w (n - 1) = xs.drop (n - w) := by
  unfold windowAt
  rw [Nat.sub_add_cancel h, ← hn, List.take_length]

/-- `_calculate_rsi` computes `rsiVal` of the trailing window means. -/
theorem calculate_rsi_eq (prices : List ℚ) (w : ℕ) (h1 : 1 ≤ prices.length)
    (hw : w ≤ prices.length) :
    calculate_rsi prices w =
      rsiVal (mean ((gainsOf prices).drop (prices.length - w)))
        (mean ((lossesOf prices).drop (prices.length - w))) := by
  unfold calculate_rsi
  rw [rsiSeries_getLast? prices w h1, if_pos hw,
    windowAt_last _ w _ (gainsOf_length prices) h1,
    windowAt_last _ w _ (lossesOf_length prices) h1]

theorem zipWith_diff_ne_none (u v : List ℚ)
    (x : Option ℚ) (hx : x ∈ List.zipWith (fun a b : ℚ => some (b - a)) u v) :
    x ≠ none := by
  induction u generalizing v with
  | nil => simp at hx
  | cons a u ih =>
    cases v with
    | nil => simp at hx
    | cons b v =>
      rcases List.mem_cons.mp hx with h | h
      · subst h; exact Option.some_ne_none _
      · exact ih v h

/-- With at least `w+1` bars, every trailing delta is a genuine number. -/
theorem trailingDeltas_ne_none (prices : List ℚ) (w : ℕ)
    (h : w + 1 ≤ prices.length) (x : Option ℚ)
    (hx : x ∈ trailingDeltas prices w) : x ≠ none := by
  cases prices with
  | nil => simp at h
  | cons p t =>
    unfold trailingDeltas deltaList at hx
    have hk : (p :: t).length - w = ((p :: t).length - w - 1) + 1 := by
      simp only [List.length_cons] at h ⊢
      omega
    rw [hk, List.drop_succ_cons] at hx
    exact zipWith_diff_ne_none _ _ x (List.mem_of_mem_drop hx)

theorem gains_drop_eq (prices : List ℚ) (w : ℕ) :
    (gainsOf prices).drop (prices.length - w) = (trailingDeltas prices w).map gainOf := by
  unfold gainsOf trailingDeltas
  exact (List.map_drop gainOf _ _).symm

theorem losses_drop_eq (prices : List ℚ) (w : ℕ) :
    (lossesOf prices).drop (prices.length - w) = (trailingDeltas prices w).map lossOf := by
  unfold lossesOf trailingDeltas
  exact (List.map_drop lossOf _ _).symm

/-- `rsiVal` bounds for non-negative, not-both-zero mean gain and loss. -/
theorem rsiVal_bounds (g l : ℚ) (hg : 0 ≤ g) (hl : 0 ≤ l)
    (hnz : ¬(g = 0 ∧ l = 0)) :
    ∃ r, rsiVal g l = some r ∧ 0 ≤ r ∧ r ≤ 100 := by
  unfold rsiVal
  by_cases h0 : l = 0
  · have hg0 : g ≠ 0 := fun hc => hnz ⟨hc, h0⟩
    rw [if_pos h0, if_neg hg0]
    exact ⟨100, rfl, by norm_num, le_refl 100⟩
  · rw [if_neg h0]
    have hlpos : 0 < l := lt_of_le_of_ne hl (Ne.symm h0)
    have hgl : 0 ≤ g / l := div_nonneg hg hl
    have hpos : 0 < 1 + g / l := by linarith
    have hub : 100 / (1 + g / l) ≤ 100 := by
      rw [div_le_iff₀ hpos]
      nlinarith
    have hlb : 0 < 100 / (1 + g / l) := div_pos (by norm_num) hpos
    exact ⟨_, rfl, by linarith, by linarith⟩

theorem mean_map_gain_pos (td : List (Option ℚ)) (d : ℚ) (hd : some d ∈ td)
    (hp : 0 < d) : 0 < mean (td.map gainOf) := by
  refine mean_pos _ (fun x hx => ?_) (gainOf (some d))
    (List.mem_map_of_mem gainOf hd) ?_
  · obtain ⟨y, _, rfl⟩ := List.mem_map.mp hx
    exact gainOf_nonneg y
  · simp only [gainOf, if_pos hp]
    exact hp

theorem mean_map_loss_pos (td : List (Option ℚ)) (d : ℚ) (hd : some d ∈ td)
    (hn : d < 0) : 0 < mean (td.map lossOf) := by
  refine mean_pos _ (fun x hx => ?_) (lossOf (some d))
    (List.mem_map_of_mem lossOf hd) ?_
  · obtain ⟨y, _, rfl⟩ := List.mem_map.mp hx
    exact lossOf_nonneg y
  · simp only [lossOf, if_pos hn]
    linarith

/-- C2: with at least 15 bars the trailing 14 deltas are all genuine
    numbers; if they are not all zero, the RSI snapshot is a number in
    `[0, 100]`; and if they are moreover all non-negative (so mean loss
    is 0) with one positive, the RSI equals exactly 100. -/
theorem C2_rsi_bounds (prices : List ℚ) (h15 : 15 ≤ prices.length)
    (hnz : ∃ d, some d ∈ trailingDeltas prices 14 ∧ d ≠ 0) :
    (∀ x ∈ trailingDeltas prices 14, x ≠ none)
    ∧ ∃ r, calculate_rsi prices 14 = some r ∧ 0 ≤ r ∧ r ≤ 100
      ∧ ((∀ d, some d ∈ trailingDeltas prices 14 → 0 ≤ d) → r = 100) := by
  have hfin := trailingDeltas_ne_none prices 14 (by omega)
  have hrsi := calculate_rsi_eq prices 14 (by omega) (by omega)
  rw [gains_drop_eq, losses_drop_eq] at hrsi
  obtain ⟨d, hd, hdne⟩ := hnz
  have hG : 0 ≤ mean ((trailingDeltas prices 14).map gainOf) := by
    refine mean_nonneg _ fun x hx => ?_
    obtain ⟨y, _, rfl⟩ := List.mem_map.mp hx
    exact gainOf_nonneg y
  have hL : 0 ≤ mean ((trailingDeltas prices 14).map lossOf) := by
    refine mean_nonneg _ fun x hx => ?_
    obtain ⟨y, _, rfl⟩ := List.mem_map.mp hx
    exact lossOf_nonneg y
  have hposs : 0 < mean ((trailingDeltas prices 14).map gainOf)
      ∨ 0 < mean ((trailingDeltas prices 14).map lossOf) := by
    rcases lt_trichotomy d 0 with hlt | heq | hgt
    · exact Or.inr (mean_map_loss_pos _ d hd hlt)
    · exact absurd heq hdne
    · exact Or.inl (mean_map_gain_pos _ d hd hgt)
  have hnb : ¬(mean ((trailingDeltas prices 14).map gainOf) = 0
      ∧ mean ((trailingDeltas prices 14).map lossOf) = 0) := by
    rintro ⟨hg0, hl0⟩
    rcases hposs with hpos | hpos <;> linarith
  obtain ⟨r, hr, hr0, hr100⟩ := rsiVal_bounds _ _ hG hL hnb
  refine ⟨hfin, r, by rw [hrsi]; exact hr, hr0, hr100, fun hpos => ?_⟩
  have hL0 : mean ((trailingDeltas prices 14).map lossOf) = 0 := by
    refine mean_zero_of_all_zero _ fun x hx => ?_
    obtain ⟨y, hy, rfl⟩ := List.mem_map.mp hx
    cases y with
    | none => rfl
    | some dv =>
      have hdv : 0 ≤ dv := hpos dv hy
      simp only [lossOf, if_neg (not_lt.mpr hdv)]
  have hdpos : 0 < d := lt_of_le_of_ne (hpos d hd) (Ne.symm hdne)
  have hGpos := mean_map_gain_pos _ d hd hdpos
  have h100 : rsiVal (mean ((trailingDeltas prices 14).map gainOf))
      (mean ((trailingDeltas prices 14).map lossOf)) = some 100 := by
    rw [hL0]
    unfold rsiVal
    rw [if_pos rfl, if_neg (ne_of_gt hGpos)]
  rw [h100] at hr
  exact (Option.some.inj hr).symm

/-- Witness for C2 at the strictly rising 15-bar series `[1, …, 15]`. -/
theorem C2_rsi_bounds_witness :
    (∀ x ∈ trailingDeltas
        [(1 : ℚ), 2, 3, 4, 5, 6, 7, 8, 9, 10, 11, 12, 13, 14, 15] 14, x ≠ none)
    ∧ ∃ r, calculate_rsi
        [(1 : ℚ), 2, 3, 4, 5, 6, 7, 8, 9, 10, 11, 12, 13, 14, 15] 14 = some r
      ∧ 0 ≤ r ∧ r ≤ 100
      ∧ ((∀ d, some d ∈ trailingDeltas
          [(1 : ℚ), 2, 3, 4, 5, 6, 7, 8, 9, 10, 11, 12, 13, 14, 15] 14 → 0 ≤ d) →
          r = 100) :=
  C2_rsi_bounds [(1 : ℚ), 2, 3, 4, 5, 6, 7, 8, 9, 10, 11, 12, 13, 14, 15]
    (by norm_num)
    ⟨1, by norm_num [trailingDeltas, deltaList], by norm_num⟩

/-- C7 counterexample: a non-empty series with 14 bars (fewer than
    `w + 1 = 15`) for which `_calculate_rsi` returns the number `0`, not
    an undefined value: the `NaN` first delta is silently turned into a
    zero gain and loss by `delta.where`, so 14 bars already produce a
    defined RSI. -/
theorem C7_counterexample :
    [(2 : ℚ), 1, 1, 1, 1, 1, 1, 1, 1, 1, 1, 1, 1, 1].length < 15
    ∧ calculate_rsi [(2 : ℚ), 1, 1, 1, 1, 1, 1, 1, 1, 1, 1, 1, 1, 1] 14 = some 0 := by
  refine ⟨by norm_num, ?_⟩
  rw [calculate_rsi_eq _ 14 (by norm_num) (by norm_num)]
  norm_num [gainsOf, lossesOf, gainOf, lossOf, deltaList, mean, rsiVal]

/-- C7 (amended): for every non-empty series with fewer than `w = 14`
    bars the RSI snapshot is undefined; with exactly 14 bars it can
    already be a defined number because the first delta is treated as a
    zero gain and zero loss. -/
theorem C7_rsi_insufficient (prices : List ℚ) (h1 : 1 ≤ prices.length)
    (hlt : prices.length < 14) : calculate_rsi prices 14 = none := by
  unfold calculate_rsi
  rw [rsiSeries_getLast? prices 14 h1, if_neg (by omega)]

/-- Witness for C7 (amended) at the two-bar series `[1, 2]`. -/
theorem C7_rsi_insufficient_witness : calculate_rsi [(1 : ℚ), 2] 14 = none :=
  C7_rsi_insufficient [(1 : ℚ), 2] (by norm_num) (by norm_num)

/-! ### Claims C5 and C9: risk metrics -/

theorem get_volatility_metrics_eq (closes : List ℚ) (hne : pctChange closes ≠ []) :
    get_volatility_metrics closes = some
      { annualized_volatility := (annVolOf (pctChange closes)).map fun v => v * 100,
        sharpe_ratio := sharpeOf (pctChange closes),
        max_drawdown := (maxDrawdownOf (pctChange closes)).map fun v => v * 100,
        var_95 := percentileLinear (pctChange closes) 5 * 100 } := by
  unfold get_volatility_metrics
  cases h : pctChange closes with
  | nil => exact absurd h hne
  | cons r t => rfl

theorem sq_sum_nonneg (l : List ℚ) : 0 ≤ (l.map fun x => (x - mean l) ^ 2).sum := by
  refine List.sum_nonneg fun x hx => ?_
  obtain ⟨y, _, rfl⟩ := List.mem_map.mp hx
  positivity

theorem sampleVar_nonneg (l : List ℚ) (h2 : 2 ≤ l.length) : 0 ≤ sampleVar l := by
  refine div_nonneg (sq_sum_nonneg l) ?_
  have : (2 : ℚ) ≤ l.length := by exact_mod_cast h2
  linarith

theorem sampleVar_eq_zero_all_mean (l : List ℚ) (h2 : 2 ≤ l.length)
    (hv : sampleVar l = 0) : ∀ x ∈ l, x = mean l := by
  intro x hx
  have hlen : (2 : ℚ) ≤ l.length := by exact_mod_cast h2
  have hden : ((l.length : ℚ) - 1) ≠ 0 := by
    intro hc
    linarith
  have hsum : (l.map fun y => (y - mean l) ^ 2).sum = 0 := by
    rcases div_eq_zero_iff.mp hv with h | h
    · exact h
    · exact absurd h hden
  have hmem := List.mem_map_of_mem (fun y => (y - mean l) ^ 2) hx
  have hle := List.single_le_sum
    (fun y hy => by obtain ⟨z, _, rfl⟩ := List.mem_map.mp hy; positivity) _ hmem
  have hle' : (x - mean l) ^ 2 ≤ (l.map fun y => (y - mean l) ^ 2).sum := hle
  have h0 : (0 : ℚ) ≤ (x - mean l) ^ 2 := by positivity
  have hq : (x - mean l) ^ 2 = 0 := by
    rw [hsum] at hle'
    linarith
  have := pow_eq_zero_iff (two_ne_zero) |>.mp hq
  linarith [sub_eq_zero.mp this]

theorem cumprodAux_all_zero (rs : List ℚ) (acc : ℚ) (h : ∀ r ∈ rs, r = 0) :
    cumprodAux acc rs = List.replicate rs.length acc := by
  induction rs generalizing acc with
  | nil => rfl
  | cons r t ih =>
    have hr : r = 0 := h r (List.mem_cons_self r t)
    have h1 : acc * (1 + r) = acc := by rw [hr]; ring
    simp only [cumprodAux, h1, List.length_cons, List.replicate_succ]
    exact congrArg (acc :: ·) (ih acc fun x hx => h x (List.mem_cons_of_mem r hx))

theorem runningMaxAux_replicate (n : ℕ) (c : ℚ) :
    runningMaxAux c (List.replicate n c) = List.replicate n c := by
  induction n with
  | zero => rfl
  | succ m ih => simp only [List.replicate_succ, runningMaxAux, max_self, ih]

theorem runningMax_replicate (n : ℕ) (c : ℚ) :
    runningMax (List.replicate n c) = List.replicate n c := by
  cases n with
  | zero => rfl
  | succ m =>
    simp only [List.replicate_succ, runningMax, runningMaxAux_replicate]

theorem zipWith_dd_replicate_one (n : ℕ) :
    List.zipWith (fun c m : ℚ => (c - m) / m)
      (List.replicate n 1) (List.replicate n 1) = List.replicate n 0 := by
  induction n with
  | zero => rfl
  | succ m ih =>
    simp only [List.replicate_succ, List.zipWith_cons_cons, ih]
    norm_num

theorem foldl_min_replicate (m : ℕ) (c : ℚ) :
    (List.replicate m c).foldl min c = c := by
  induction m with
  | zero => rfl
  | succ k ih => simp only [List.replicate_succ, List.foldl_cons, min_self, ih]

theorem listMin_replicate (n : ℕ) (c : ℚ) (h : 1 ≤ n) :
    listMin (List.replicate n c) = some c := by
  cases n with
  | zero => omega
  | succ m =>
    simp only [List.replicate_succ, listMin, foldl_min_replicate]

/-- All-zero returns give a zero max drawdown. -/
theorem maxDrawdownOf_zero (returns : List ℚ) (hne : returns ≠ [])
    (h : ∀ r ∈ returns, r = 0) : maxDrawdownOf returns = some 0 := by
  unfold maxDrawdownOf drawdownSeries cumprod
  rw [cumprodAux_all_zero returns 1 h, runningMax_replicate,
    zipWith_dd_replicate_one, listMin_replicate _ _ (List.length_pos.mpr hne)]

/-- C5 (amended): whenever the return series has at least two points and
    zero sample variance, reported annualized volatility and Sharpe are
    both `0`; max drawdown is additionally `0` when the returns are all
    zero (constant prices).  (Two-bar series give `NaN`, not `0`, and a
    constant negative return gives zero volatility but nonzero drawdown,
    hence the two extra hypotheses.) -/
theorem C5_risk_zero_vol (closes : List ℚ) (h2 : 2 ≤ (pctChange closes).length)
    (hv : sampleVar (pctChange closes) = 0) :
    ∃ snap, get_volatility_metrics closes = some snap
      ∧ snap.annualized_volatility = some 0
      ∧ snap.sharpe_ratio = some 0
      ∧ ((∀ r ∈ pctChange closes, r = 0) → snap.max_drawdown = some 0) := by
  have hne : pctChange closes ≠ [] := by
    intro hc
    rw [hc] at h2
    simp at h2
  have hstd : sampleStd (pctChange closes) = some 0 := by
    unfold sampleStd
    rw [if_pos h2, hv]
    simp
  have hann : annVolOf (pctChange closes) = some 0 := by
    unfold annVolOf
    rw [hstd]
    simp
  refine ⟨_, get_volatility_metrics_eq closes hne, ?_, ?_, fun hz => ?_⟩
  · rw [hann]
    simp
  · unfold sharpeOf
    rw [hann]
    simp
  · rw [maxDrawdownOf_zero _ hne hz]
    simp

/-- Witness for C5 at the series `[1, 2, 4]` (returns `[1, 1]`). -/
theorem C5_risk_zero_vol_witness :
    ∃ snap, get_volatility_metrics [(1 : ℚ), 2, 4] = some snap
      ∧ snap.annualized_volatility = some 0
      ∧ snap.sharpe_ratio = some 0
      ∧ ((∀ r ∈ pctChange [(1 : ℚ), 2, 4], r = 0) → snap.max_drawdown = some 0) :=
  C5_risk_zero_vol [(1 : ℚ), 2, 4] (by norm_num [pctChange])
    (by norm_num [pctChange, sampleVar, mean])

/-- C5 counterexample.  At `[100, 90, 81]` the returns are `[-0.1, -0.1]`
    with zero sample variance, yet max drawdown is `-10`, not `0`; and at
    the two-bar constant series `[100, 100]` the single return gives
    `NaN` (ddof = 1) volatility, not `0`. -/
theorem C5_counterexample :
    (2 ≤ (pctChange [(100 : ℚ), 90, 81]).length
      ∧ sampleVar (pctChange [(100 : ℚ), 90, 81]) = 0
      ∧ ∃ snap, get_volatility_metrics [(100 : ℚ), 90, 81] = some snap
          ∧ snap.max_drawdown ≠ some 0)
    ∧ (2 ≤ ([(100 : ℚ), 100] : List ℚ).length
      ∧ ∃ snap, get_volatility_metrics [(100 : ℚ), 100] = some snap
          ∧ snap.annualized_volatility = none) := by
  constructor
  · refine ⟨by norm_num [pctChange], by norm_num [pctChange, sampleVar, mean], ?_⟩
    refine ⟨_, get_volatility_metrics_eq _ (by simp [pctChange]), ?_⟩
    norm_num [maxDrawdownOf, drawdownSeries, cumprod, cumprodAux, runningMax,
      runningMaxAux, listMin, pctChange, max_def, min_def]
  · refine ⟨by norm_num, ?_⟩
    refine ⟨_, get_volatility_metrics_eq _ (by norm_num [pctChange]), ?_⟩
    have hlen : (pctChange [(100 : ℚ), 100]).length = 1 := by
      norm_num [pctChange]
    simp [annVolOf, sampleStd, hlen]

/-- C9: at the failing single-bar input `[100]` the return series is
    empty and `get_volatility_metrics` aborts with an exception (modelled
    as `none`) raised by `np.percentile` on empty input, instead of
    reporting undefined metric values. -/
theorem C9_var95_raises :
    pctChange [(100 : ℚ)] = [] ∧ get_volatility_metrics [(100 : ℚ)] = none :=
  ⟨rfl, rfl⟩

/-! ### Claim C6: Bollinger-band position -/

theorem calculate_bollinger_position_fval (prices : List ℚ) (w : ℕ)
    (num_std cur : ℚ) (u l : ℝ) (hcur : prices.getLast? = some cur)
    (hu : (bbUpper prices w num_std).getLast? = some (some u))
    (hl : (bbLower prices w num_std).getLast? = some (some l)) :
    calculate_bollinger_position prices w num_std =
      .fval (pyMul100 (fdivR ((cur : ℝ) - l) (u - l))) := by
  unfold calculate_bollinger_position
  rw [hcur, hu, hl]
  rfl

theorem calculate_bollinger_position_pynone (prices : List ℚ) (w : ℕ)
    (num_std cur : ℚ) (hcur : prices.getLast? = some cur)
    (hu : (bbUpper prices w num_std).getLast? = some none) :
    calculate_bollinger_position prices w num_std = .pynone := by
  unfold calculate_bollinger_position
  rw [hcur, hu]
  rfl

/-- The upper band at the last bar, unfolded: defined exactly when
    `2 ≤ w ∧ w ≤ len`, with value `mean + k·sqrt(var)` of the trailing
    window. -/
theorem bbUpper_getLast? (prices : List ℚ) (w : ℕ) (k : ℚ)
    (h1 : 1 ≤ prices.length) :
    (bbUpper prices w k).getLast? = some (if 2 ≤ w ∧ w ≤ prices.length then
      some ((mean (windowAt prices w (prices.length - 1)) : ℝ) + (k : ℝ) *
        Real.sqrt (sampleVar (windowAt prices w (prices.length - 1)) : ℝ))
      else none) := by
  rw [List.getLast?_eq_getElem?, bbUpper_length,
    bbUpper_getElem? _ _ _ _ (by omega), Nat.sub_add_cancel h1]

theorem bbLower_getLast? (prices : List ℚ) (w : ℕ) (k : ℚ)
    (h1 : 1 ≤ prices.length) :
    (bbLower prices w k).getLast? = some (if 2 ≤ w ∧ w ≤ prices.length then
      some ((mean (windowAt prices w (prices.length - 1)) : ℝ) - (k : ℝ) *
        Real.sqrt (sampleVar (windowAt prices w (prices.length - 1)) : ℝ))
      else none) := by
  rw [List.getLast?_eq_getElem?, bbLower_length,
    bbLower_getElem? _ _ _ _ (by omega), Nat.sub_add_cancel h1]

/-- C6 (amended): on a non-empty series the Bollinger position is Python
    `None` when fewer than 20 bars exist; when both bands are defined and
    equal (zero variance window) the code still evaluates the position
    formula — a `0/0` division — and returns float `NaN`, not `None` and
    not an infinity; when the bands differ it returns the finite number
    `(close - lower) / (upper - lower) * 100`. -/
theorem C6_bollinger_position (prices : List ℚ) (cur : ℚ)
    (hcur : prices.getLast? = some cur) :
    (prices.length < 20 → calculate_bollinger_position prices 20 2 = .pynone)
    ∧ (∀ u l : ℝ, (bbUpper prices 20 2).getLast? = some (some u) →
        (bbLower prices 20 2).getLast? = some (some l) →
        (u = l → calculate_bollinger_position prices 20 2 = .fval .nan)
        ∧ (u ≠ l → calculate_bollinger_position prices 20 2 =
            .fval (.num (((cur : ℝ) - l) / (u - l) * 100)))) := by
  have hne : prices ≠ [] := by
    intro hc
    rw [hc] at hcur
    exact Option.noConfusion hcur
  have h1 : 1 ≤ prices.length := List.length_pos.mpr hne
  constructor
  · intro hlt
    refine calculate_bollinger_position_pynone prices 20 2 cur hcur ?_
    rw [bbUpper_getLast? prices 20 2 h1, if_neg (fun hc => by omega)]
  · intro u l hu hl
    have hu' := Option.some.inj ((bbUpper_getLast? prices 20 2 h1).symm.trans hu)
    have hl' := Option.some.inj ((bbLower_getLast? prices 20 2 h1).symm.trans hl)
    by_cases hcond : 2 ≤ 20 ∧ 20 ≤ prices.length
    · rw [if_pos hcond] at hu' hl'
      have huval := Option.some.inj hu'
      have hlval := Option.some.inj hl'
      have hres := calculate_bollinger_position_fval prices 20 2 cur u l hcur hu hl
      constructor
      · intro huv
        have hS : Real.sqrt
            (sampleVar (windowAt prices 20 (prices.length - 1)) : ℝ) = 0 := by
          rw [← huval, ← hlval] at huv
          push_cast at huv
          linarith
        have hWlen : (windowAt prices 20 (prices.length - 1)).length = 20 :=
          windowAt_length prices 20 (prices.length - 1) (by omega) (by omega)
        have hV0 : sampleVar (windowAt prices 20 (prices.length - 1)) = 0 := by
          have hle : (sampleVar (windowAt prices 20 (prices.length - 1)) : ℝ) ≤ 0 :=
            Real.sqrt_eq_zero'.mp hS
          have hge : 0 ≤ sampleVar (windowAt prices 20 (prices.length - 1)) :=
            sampleVar_nonneg _ (by omega)
          have hle' : sampleVar (windowAt prices 20 (prices.length - 1)) ≤ 0 := by
            exact_mod_cast hle
          linarith
        have hall := sampleVar_eq_zero_all_mean _ (by omega) hV0
        have hWdrop : windowAt prices 20 (prices.length - 1) =
            prices.drop (prices.length - 20) :=
          windowAt_last prices 20 prices.length rfl h1
        have hcurW : cur ∈ windowAt prices 20 (prices.length - 1) := by
          rw [hWdrop]
          have hidx : (prices.drop (prices.length - 20))[prices.length - 1 -
              (prices.length - 20)]? = some cur := by
            rw [List.getElem?_drop, ← hcur, List.getLast?_eq_getElem?]
            congr 1
            omega
          exact List.getElem?_mem hidx
        have hcM : cur = mean (windowAt prices 20 (prices.length - 1)) :=
          hall cur hcurW
        have hnum : (cur : ℝ) - l = 0 := by
          rw [← hlval, hS, hcM]
          push_cast
          ring
        have hden : u - l = 0 := by
          rw [huv]
          ring
        rw [hres, hnum, hden]
        simp [fdivR, pyMul100]
      · intro huv
        have hden : u - l ≠ 0 := sub_ne_zero.mpr huv
        rw [hres]
        simp [fdivR, hden, pyMul100]
    · rw [if_neg hcond] at hu'
      exact absurd hu' (by simp)

/-- Witness for C6 (amended) at the one-bar series `[100]`. -/
theorem C6_bollinger_position_witness :
    calculate_bollinger_position [(100 : ℚ)] 20 2 = .pynone :=
  (C6_bollinger_position [(100 : ℚ)] 100 rfl).1 (by norm_num)

theorem replicate20_mean : mean (List.replicate 20 (100 : ℚ)) = 100 := by
  rw [mean, List.sum_replicate, List.length_replicate]
  norm_num

theorem replicate20_var : sampleVar (List.replicate 20 (100 : ℚ)) = 0 := by
  rw [sampleVar, List.map_replicate, replicate20_mean, List.sum_replicate]
  norm_num

theorem replicate20_window :
    windowAt (List.replicate 20 (100 : ℚ)) 20 19 = List.replicate 20 (100 : ℚ) := by
  simp [windowAt]

/-- C6 counterexample: on a constant 20-bar series both bands are defined
    and equal, so the position formula is evaluated with a zero
    denominator (the division by zero the claim rules out is performed),
    and the result is the float `NaN` it produces, not Python `None`. -/
theorem C6_counterexample :
    (bbUpper (List.replicate 20 (100 : ℚ)) 20 2).getLast? = some (some 100)
    ∧ (bbLower (List.replicate 20 (100 : ℚ)) 20 2).getLast? = some (some 100)
    ∧ calculate_bollinger_position (List.replicate 20 (100 : ℚ)) 20 2 =
        .fval .nan := by
  have h1 : 1 ≤ (List.replicate 20 (100 : ℚ)).length := by simp
  have hu : (bbUpper (List.replicate 20 (100 : ℚ)) 20 2).getLast? =
      some (some 100) := by
    rw [bbUpper_getLast? _ 20 2 h1, List.length_replicate,
      if_pos (by norm_num), show 20 - 1 = 19 from rfl, replicate20_window,
      replicate20_mean, replicate20_var]
    norm_num
  have hl : (bbLower (List.replicate 20 (100 : ℚ)) 20 2).getLast? =
      some (some 100) := by
    rw [bbLower_getLast? _ 20 2 h1, List.length_replicate,
      if_pos (by norm_num), show 20 - 1 = 19 from rfl, replicate20_window,
      replicate20_mean, replicate20_var]
    norm_num
  have hcur : (List.replicate 20 (100 : ℚ)).getLast? = some 100 := rfl
  refine ⟨hu, hl, ?_⟩
  rw [calculate_bollinger_position_fval _ 20 2 100 100 100 hcur hu hl]
  norm_num [fdivR, pyMul100]

/-! ### Claim C8: input validation -/

/-- A non-empty series always produces a non-empty performance table
    (the YTD row is always emitted). -/
theorem perf_rows_nonempty (bars : List Bar) (y : ℤ) (hne : bars ≠ []) :
    ∃ rows, get_performance_metrics bars y = some rows ∧ rows ≠ [] := by
  have hcne : closesOf bars ≠ [] := by
    simp [closesOf, hne]
  obtain ⟨cur, hcur⟩ :=
    Option.isSome_iff_exists.mp (List.getLast?_isSome.mpr hcne)
  unfold get_performance_metrics
  rw [hcur]
  exact ⟨_, rfl, by simp⟩

/-- C8 counterexample: a series with a duplicate date is malformed, yet
    the metrics computation accepts it and returns performance rows — no
    `InvalidSeries` rejection happens anywhere. -/
theorem C8_counterexample :
    MalformedSeries [Bar.mk (2025, 1, 2) 100, Bar.mk (2025, 1, 2) 110]
    ∧ ∃ rows, get_performance_metrics
        [Bar.mk (2025, 1, 2) 100, Bar.mk (2025, 1, 2) 110] 2025 = some rows
      ∧ rows ≠ [] := by
  constructor
  · intro hs
    exact absurd (List.chain'_cons.mp hs).1 (by decide)
  · exact perf_rows_nonempty _ 2025 (by simp)

/-- C8 (amended): the constructor performs no validation — it stores
    `stock_info` and `stock_data` verbatim — and even a malformed series
    (non-monotonic or duplicate dates) is accepted, with metrics computed
    from it as-is; there is no `InvalidSeries` error in the code. -/
theorem C8_no_validation (info : List (String × ℚ)) (bars : List Bar) (y : ℤ)
    (hmal : MalformedSeries bars) (hne : bars ≠ []) :
    (FinancialMetrics.init info bars).stock_info = info
    ∧ (FinancialMetrics.init info bars).stock_data = bars
    ∧ ∃ rows, get_performance_metrics bars y = some rows ∧ rows ≠ [] :=
  ⟨rfl, rfl, perf_rows_nonempty bars y hne⟩

/-- Witness for C8 (amended) at a duplicate-date two-bar series. -/
theorem C8_no_validation_witness :
    (FinancialMetrics.init []
        [Bar.mk (2025, 1, 2) 100, Bar.mk (2025, 1, 2) 110]).stock_info = []
    ∧ (FinancialMetrics.init []
        [Bar.mk (2025, 1, 2) 100, Bar.mk (2025, 1, 2) 110]).stock_data =
        [Bar.mk (2025, 1, 2) 100, Bar.mk (2025, 1, 2) 110]
    ∧ ∃ rows, get_performance_metrics
        [Bar.mk (2025, 1, 2) 100, Bar.mk (2025, 1, 2) 110] 2026 = some rows
      ∧ rows ≠ [] :=
  C8_no_validation [] [Bar.mk (2025, 1, 2) 100, Bar.mk (2025, 1, 2) 110] 2026
    (fun hs => absurd (List.chain'_cons.mp hs).1 (by decide)) (by simp)

/-! ### Claim C10: purity / wall-clock independence -/

/-- C10 counterexample: the same series gives different performance
    tables under different ambient wall-clock years, because the YTD row
    reads `datetime.now().year`. -/
theorem C10_counterexample :
    get_performance_metrics
        [Bar.mk (2025, 1, 2) 100, Bar.mk (2025, 1, 3) 110] 2025
      ≠ get_performance_metrics
        [Bar.mk (2025, 1, 2) 100, Bar.mk (2025, 1, 3) 110] 2026 := by
  norm_num [get_performance_metrics, closesOf, periodTable, fixedRow, ytdRow,
    Bar.year]

/-- C10 (amended): every metrics operation except the YTD performance row
    is a deterministic function of the series alone; in particular the
    non-YTD part of the performance table is identical under any two
    ambient wall-clock years. -/
theorem C10_determinism (bars : List Bar) (y1 y2 : ℤ) :
    (get_performance_metrics bars y1).map (List.filter fun r => r.1 != "YTD")
      = (get_performance_metrics bars y2).map (List.filter fun r => r.1 != "YTD") := by
  unfold get_performance_metrics
  cases h : (closesOf bars).getLast? with
  | none => rfl
  | some cur =>
    simp only [Option.map_some']
    rw [List.filter_append, List.filter_append]
    congr 1
    have e1 : List.filter (fun r => r.1 != "YTD") [ytdRow bars cur y1] = [] := by
      simp [List.filter_singleton, ytdRow_fst]
    have e2 : List.filter (fun r => r.1 != "YTD") [ytdRow bars cur y2] = [] := by
      simp [List.filter_singleton, ytdRow_fst]
    rw [e1, e2]

/-- Witness for C10 (amended) at a concrete series and two years. -/
theorem C10_determinism_witness :
    (get_performance_metrics
        [Bar.mk (2025, 1, 2) 100, Bar.mk (2025, 1, 3) 110] 2025).map
        (List.filter fun r => r.1 != "YTD")
      = (get_performance_metrics
        [Bar.mk (2025, 1, 2) 100, Bar.mk (2025, 1, 3) 110] 2026).map
        (List.filter fun r => r.1 != "YTD") :=
  C10_determinism [Bar.mk (2025, 1, 2) 100, Bar.mk (2025, 1, 3) 110] 2025 2026

end StockView
